import Mathlib

/-!
Shallow embedding of the ANT debug channel module
(src/examples/ant/experimental/ant_debug/debug.c) and proofs about it.

The C module keeps the following static state, which we collect in `DState`:

  debug_value_t m_debug_queue[256]   -> DState.queue   (index, value, output)
  uint8_t m_hash_lookup[256]         -> DState.lookup
  uint8_t m_queue_size               -> DState.queueSize
  uint8_t m_current_index_debug_channel -> DState.cursor
  uint8_t m_head                     -> DState.head
  bool m_selective_debug             -> DState.selective
  uint8_t m_fast_debug_byte          -> DState.fastByte

Machine integers are modelled as `Nat` with explicit `% 256` / `% 65536`
reductions at each point where the C type system truncates a stored value.
Arrays of 256 entries are modelled as total functions out of `Nat`; every
array subscript performed by the C code is an `uint8_t` value, hence < 256.
The unbounded `while (count < 2)` loop of `ad_get_debug_page` is modelled
with explicit fuel (one unit of fuel per loop iteration); `none` means the
loop has not finished within the given number of iterations, and a result
of `none` for every fuel value means the C loop never terminates.
-/

/-- One entry of `m_debug_queue` (C struct `debug_value_t`):
a field key (`index`, uint8_t), its value (uint16_t) and the selective
debug `output` flag. -/
structure DebugValue where
  index : Nat
  value : Nat
  output : Bool
  deriving DecidableEq

/-- The complete static state of debug.c (see the module comment for the
field-by-field correspondence). -/
structure DState where
  queue : Nat → DebugValue
  lookup : Nat → Nat
  queueSize : Nat
  cursor : Nat
  head : Nat
  selective : Bool
  fastByte : Nat

/-- C function `ad_output_debug_mesg`: an index is included in a debug
message iff selective debugging is off, or its `output` flag is set. -/
def ad_output_debug_mesg (s : DState) (currentIndex : Nat) : Bool :=
  if s.selective then (s.queue currentIndex).output else true

/-- The `while (count < 2)` loop of C function `ad_get_debug_page`,
with explicit fuel.  Each iteration examines the slot at the cursor,
emits `(key, value-lo, value-hi)` at message offset `2 + count * 3` when
the slot is eligible, then advances the cursor by one, wrapping to 0 at
`m_queue_size`.  Returns the updated message buffer and cursor, or `none`
if the loop did not collect two values within `fuel` iterations. -/
def ad_page_loop (s : DState) : Nat → (Nat → Nat) → Nat → Nat → Option ((Nat → Nat) × Nat)
  | 0, pData, current, count =>
      if 2 ≤ count then some (pData, current) else none
  | fuel + 1, pData, current, count =>
      if 2 ≤ count then some (pData, current)
      else
        let idx := 2 + count * 3
        let pData2 :=
          if ad_output_debug_mesg s current then
            Function.update (Function.update (Function.update pData
              idx ((s.queue current).index))
              (idx + 1) ((s.queue current).value % 256))
              (idx + 2) ((s.queue current).value / 256 % 256)
          else pData
        let count2 := if ad_output_debug_mesg s current then count + 1 else count
        let c1 := (current + 1) % 256
        let c2 := if s.queueSize ≤ c1 then 0 else c1
        ad_page_loop s fuel pData2 c2 count2

/-- C function `ad_get_debug_page`: writes the page tag 0xF9 at offset 0
and the fast debug byte at offset 1; if the registry is non-empty it runs
the collection loop from the persisted cursor, otherwise it fills offsets
2..7 with the reserved byte 0xFF and leaves the cursor unchanged. -/
def ad_get_debug_page (s : DState) (pData : Nat → Nat) (fuel : Nat) :
    Option ((Nat → Nat) × Nat) :=
  let p1 := Function.update (Function.update pData 0 249) 1 s.fastByte
  if 0 < s.queueSize then
    ad_page_loop s fuel p1 s.cursor 0
  else
    some (Function.update (Function.update (Function.update (Function.update
      (Function.update (Function.update p1 2 255) 3 255) 4 255) 5 255) 6 255) 7 255,
      s.cursor)

/-- C function `ad_set_debug_field`: if the key is known, overwrite the
value in its slot; otherwise allocate the slot `m_head`, record the
key→slot mapping, bump `m_head` and `m_queue_size` (both uint8_t, hence
the `% 256`), then write the value into the chosen slot. -/
def ad_set_debug_field (s : DState) (index fieldValue : Nat) : DState :=
  let key := index % 256
  let i := if s.lookup key ≠ 255 then s.lookup key else s.head
  let s1 :=
    if s.lookup key ≠ 255 then s
    else
      { s with
        lookup := Function.update s.lookup key s.head
        queue := Function.update s.queue s.head { s.queue s.head with index := key }
        head := (s.head + 1) % 256
        queueSize := (s.queueSize + 1) % 256 }
  { s1 with queue := Function.update s1.queue i { s1.queue i with value := fieldValue % 65536 } }

/-- C function `ad_get_debug_field`: reads `m_debug_queue[m_hash_lookup[index]]`
(without first checking the lookup sentinel) and reports the value iff the
slot's stored key is not 0xFF.  `none` models `return false`. -/
def ad_get_debug_field (s : DState) (index : Nat) : Option Nat :=
  let value := s.queue (s.lookup (index % 256))
  if value.index ≠ 255 then some value.value else none

/-- C function `ad_increment_debug_field`: read the field; on success add
one (uint16_t arithmetic) and write it back through `ad_set_debug_field`. -/
def ad_increment_debug_field (s : DState) (index : Nat) : DState :=
  match ad_get_debug_field s index with
  | some v => ad_set_debug_field s index ((v + 1) % 65536)
  | none => s

/-- C function `ad_set_fast_debug_byte`. -/
def ad_set_fast_debug_byte (s : DState) (fdbValue : Nat) : DState :=
  { s with fastByte := fdbValue % 256 }

/-- One iteration of the filter-add loop in `ad_decode_debug_command`:
for a data byte `b` different from 0xFF, register the key through
`ad_set_debug_field (b, 0xFFFF)` when it is unknown, then set the
`output` flag of the slot `m_hash_lookup[b]`. -/
def ad_filter_add_byte (s : DState) (b : Nat) : DState :=
  if b ≠ 255 then
    let s2 := if s.lookup b = 255 then ad_set_debug_field s b 65535 else s
    let key := s2.lookup b
    { s2 with queue := Function.update s2.queue key { s2.queue key with output := true } }
  else s

/-- The filter-clear loop of `ad_decode_debug_command`: clear the `output`
flag of every slot with index below `m_queue_size`. -/
def ad_clear_outputs (q : Nat → DebugValue) : Nat → (Nat → DebugValue)
  | 0 => q
  | n + 1 => Function.update (ad_clear_outputs q n) n { (ad_clear_outputs q n) n with output := false }

/-- C function `ad_decode_debug_command`, applied to the 8-byte payload of
the received message (an array of uint8_t, hence the `% 256` at each read).
Payload byte 1 must be the filter command (3); sub-command 1 (filter add)
sets selective mode and processes the five data bytes 3..7 in order;
sub-command 2 (filter clear) clears selective mode and all output flags;
anything else is a no-op. -/
def ad_decode_debug_command (s : DState) (payload : Nat → Nat) : DState :=
  if payload 1 % 256 = 3 then
    if payload 2 % 256 = 1 then
      List.foldl ad_filter_add_byte { s with selective := true }
        [payload 3 % 256, payload 4 % 256, payload 5 % 256, payload 6 % 256, payload 7 % 256]
    else if payload 2 % 256 = 2 then
      { s with selective := false, queue := ad_clear_outputs s.queue s.queueSize }
    else s
  else s

/-- C function `ad_init` (the state-reset part; channel setup is external):
zeroes the counters, cursor and selective flag, sets the fast byte to 0xFF,
and for every slot sets `index := 0`, `value := 0` and `lookup := 0xFF`.
Note that the loop does not touch the `output` flag of the slots. -/
def ad_init (s : DState) : DState :=
  { queue := fun i => { index := 0, value := 0, output := (s.queue i).output }
    lookup := fun _ => 255
    queueSize := 0
    cursor := 0
    head := 0
    selective := false
    fastByte := 255 }

/-- The static storage at program start: C zero-initializes all statics. -/
def powerOnState : DState :=
  { queue := fun _ => { index := 0, value := 0, output := false }
    lookup := fun _ => 0
    queueSize := 0
    cursor := 0
    head := 0
    selective := false
    fastByte := 0 }

/-- A freshly initialized registry: `ad_init` run on the power-on state. -/
def initState : DState := ad_init powerOnState

/-- Payload constructor for a command message: byte 1 is the command, byte 2
the sub-command, bytes 3..7 the data bytes; all other bytes read 0xFF. -/
def mkMsg (cmd sub b3 b4 b5 b6 b7 : Nat) : Nat → Nat :=
  fun n =>
    if n = 1 then cmd else if n = 2 then sub else if n = 3 then b3
    else if n = 4 then b4 else if n = 5 then b5 else if n = 6 then b6
    else if n = 7 then b7 else 255

/-- The operations a caller (or the event dispatcher) can perform on the
module between initializations: set a field, increment a field, decode a
received command payload, build one page (with the given loop fuel, the
cursor being persisted on success), or set the fast debug byte. -/
inductive DbgOp where
  | set : Nat → Nat → DbgOp
  | inc : Nat → DbgOp
  | dec : (Nat → Nat) → DbgOp
  | build : Nat → DbgOp
  | fast : Nat → DbgOp

/-- Whether an operation is a command decode. -/
def DbgOp.isDecode : DbgOp → Bool
  | .dec _ => true
  | _ => false

/-- A run configuration: the module state, the persistent tx buffer
(`m_tx_buffer`) and the list of pages built so far. -/
structure RunSt where
  st : DState
  buf : Nat → Nat
  pages : List (Nat → Nat)

/-- Execute one operation.  A page build that completes updates the cursor
and the tx buffer and records the emitted page; a build whose loop does not
finish produces no page (the C code would never return). -/
def applyOp (r : RunSt) : DbgOp → RunSt
  | .set k v => { r with st := ad_set_debug_field r.st k v }
  | .inc k => { r with st := ad_increment_debug_field r.st k }
  | .dec p => { r with st := ad_decode_debug_command r.st p }
  | .build fuel =>
      match ad_get_debug_page r.st r.buf fuel with
      | some pr => { st := { r.st with cursor := pr.2 }, buf := pr.1, pages := r.pages ++ [pr.1] }
      | none => r
  | .fast b => { r with st := ad_set_fast_debug_byte r.st b }

/-- Execute a list of operations from a given configuration. -/
def runFrom (r : RunSt) (ops : List DbgOp) : RunSt := ops.foldl applyOp r

/-- Execute a list of operations from the freshly initialized module. -/
def runOps (ops : List DbgOp) : RunSt :=
  runFrom { st := initState, buf := fun _ => 0, pages := [] } ops

/-- The keys (uint8_t values) that an operation can register in the
registry: the key of a set or increment, or the five data bytes of a
decoded payload. -/
def opKeys : DbgOp → Finset Nat
  | .set k _ => {k % 256}
  | .inc k => {k % 256}
  | .dec p => {p 3 % 256, p 4 % 256, p 5 % 256, p 6 % 256, p 7 % 256}
  | .build _ => ∅
  | .fast _ => ∅

/-- All keys a sequence of operations can register. -/
def keysOf (ops : List DbgOp) : Finset Nat :=
  ops.foldr (fun op acc => opKeys op ∪ acc) ∅

/-- The set of keys currently registered (lookup entry not the sentinel). -/
def Reg (s : DState) : Finset Nat :=
  (Finset.range 256).filter (fun k => s.lookup k ≠ 255)

/-- Number of loop iterations before the cursor walking cyclically through
`[0, size)` reaches slot `j`. -/
def distTo (size j c : Nat) : Nat := if c ≤ j then j - c else j + size - c

def noEligState : DState := { initState with selective := true, queueSize := 1 }

def oneIncludedState : DState :=
  { queue := fun i => if i = 1 then ⟨9, 258, true⟩ else ⟨0, 0, false⟩
    lookup := fun _ => 255
    queueSize := 2
    cursor := 0
    head := 2
    selective := true
    fastByte := 255 }

def capOps (n : Nat) : List DbgOp := (List.range n).map (fun k => DbgOp.set k k)

def afterFilterState : DState :=
  ad_decode_debug_command (ad_set_debug_field initState 5 1) (mkMsg 3 1 5 255 255 255 255)

/-- The well-formedness invariant of the registry with respect to a set T
of keys that may have been registered: head and size agree, size counts
the registered keys, registered keys come from T, and the two lookup
directions are mutually inverse on the occupied slots. -/
def WFI (s : DState) (T : Finset Nat) : Prop :=
  s.head = s.queueSize ∧
  s.queueSize = (Reg s).card ∧
  Reg s ⊆ T ∧
  (∀ i, i < s.queueSize → s.lookup ((s.queue i).index) = i) ∧
  (∀ k, k < 256 → s.lookup k ≠ 255 →
    s.lookup k < s.queueSize ∧ (s.queue (s.lookup k)).index = k)

def setOutputTrue (s : DState) (j : Nat) : DState :=
  { s with queue := Function.update s.queue j ⟨(s.queue j).index, (s.queue j).value, true⟩ }

def badC7Ops : List DbgOp := (List.range 256).map (fun k => DbgOp.set k 0) ++ [DbgOp.set 255 0]

def LookupInRange (t : DState) : Prop :=
  ∀ k, t.lookup k = 255 ∨ t.lookup k < t.head

def FilterMarked (t : DState) (b : Nat) : Prop :=
  t.lookup b ≠ 255 ∧ t.lookup b < t.head ∧ (t.queue (t.lookup b)).output = true

def FilterMarkedVal (t : DState) (b : Nat) : Prop :=
  FilterMarked t b ∧ (t.queue (t.lookup b)).value = 65535

def FilterIso (s : DState) (A B : Nat) : Prop :=
  (∀ i, (s.queue i).output = true → ((s.queue i).index = A ∨ (s.queue i).index = B) ∧ i < s.head) ∧
  LookupInRange s

theorem ad_set_unknown {s : DState} {k v : Nat} (h : s.lookup (k % 256) = 255) :
    ad_set_debug_field s k v =
      { s with
        lookup := Function.update s.lookup (k % 256) s.head
        queue := Function.update s.queue s.head
          ⟨k % 256, v % 65536, (s.queue s.head).output⟩
        head := (s.head + 1) % 256
        queueSize := (s.queueSize + 1) % 256 } := by
  simp [ad_set_debug_field, h, Function.update_idem]

theorem ad_set_known {s : DState} {k v : Nat} (h : s.lookup (k % 256) ≠ 255) :
    ad_set_debug_field s k v =
      { s with
        queue := Function.update s.queue (s.lookup (k % 256))
          ⟨(s.queue (s.lookup (k % 256))).index, v % 65536,
            (s.queue (s.lookup (k % 256))).output⟩ } := by
  simp [ad_set_debug_field, h]

theorem ad_page_loop_done {s : DState} {fuel : Nat} {buf : Nat → Nat} {c count : Nat}
    (h2 : 2 ≤ count) : ad_page_loop s fuel buf c count = some (buf, c) := by
  cases fuel <;> simp [ad_page_loop, h2]

theorem ad_page_loop_succ (s : DState) (f : Nat) (buf : Nat → Nat) (c count : Nat)
    (h2 : ¬ 2 ≤ count) :
    ad_page_loop s (f + 1) buf c count =
      ad_page_loop s f
        (if ad_output_debug_mesg s c then
            Function.update (Function.update (Function.update buf
              (2 + count * 3) ((s.queue c).index))
              (2 + count * 3 + 1) ((s.queue c).value % 256))
              (2 + count * 3 + 2) ((s.queue c).value / 256 % 256)
          else buf)
        (if s.queueSize ≤ (c + 1) % 256 then 0 else (c + 1) % 256)
        (if ad_output_debug_mesg s c then count + 1 else count) := by
  simp [ad_page_loop, h2]

theorem distTo_lt {size j c : Nat} (_hj : j < size) (hc : c < size) :
    distTo size j c < size := by
  unfold distTo; split <;> omega

theorem distTo_step {size j c : Nat} (hj : j < size) (hc : c < size) (hne : c ≠ j) :
    distTo size j (if size ≤ c + 1 then 0 else c + 1) = distTo size j c - 1 := by
  unfold distTo; split_ifs <;> omega

theorem distTo_pos {size j c : Nat} (_hj : j < size) (hc : c < size) (hne : c ≠ j) :
    0 < distTo size j c := by
  unfold distTo; split <;> omega

theorem ad_page_loop_some {s : DState} {j : Nat} (hsz255 : s.queueSize ≤ 255)
    (hj : j < s.queueSize) (hel : ad_output_debug_mesg s j = true) :
    ∀ fuel c count buf, c < s.queueSize →
      (count < 2 → distTo s.queueSize j c + (1 - count) * s.queueSize < fuel) →
      (ad_page_loop s fuel buf c count).isSome := by
  intro fuel
  induction fuel with
  | zero =>
      intro c count buf hc hbound
      by_cases h2 : 2 ≤ count
      · rw [ad_page_loop_done h2]; rfl
      · exact absurd (hbound (by omega)) (by omega)
  | succ f ih =>
      intro c count buf hc hbound
      by_cases h2 : 2 ≤ count
      · rw [ad_page_loop_done h2]; rfl
      · rw [ad_page_loop_succ s f buf c count h2]
        have hcount : count < 2 := by omega
        have hmod : (c + 1) % 256 = c + 1 := Nat.mod_eq_of_lt (by omega)
        rw [hmod]
        have hc2 : (if s.queueSize ≤ c + 1 then 0 else c + 1) < s.queueSize := by
          split <;> omega
        cases helc : ad_output_debug_mesg s c with
        | true =>
            simp only [helc, if_true]
            apply ih _ (count + 1) _ hc2
            intro hlt2
            have hcount0 : count = 0 := by omega
            have hb := hbound (by omega)
            rw [hcount0] at hb ⊢
            norm_num at hb ⊢
            have hd2 : distTo s.queueSize j (if s.queueSize ≤ c + 1 then 0 else c + 1)
                < s.queueSize := distTo_lt hj hc2
            omega
        | false =>
            simp only [helc, Bool.false_eq_true, if_false]
            apply ih _ count _ hc2
            intro _
            have hne : c ≠ j := by
              intro hcj; rw [hcj, hel] at helc; exact Bool.noConfusion helc
            have hstep := distTo_step hj hc hne
            have hpos := distTo_pos hj hc hne
            have := hbound hcount
            omega

theorem ad_page_loop_content {s : DState} :
    ∀ fuel count c buf buf2 c2,
      ad_page_loop s fuel buf c count = some (buf2, c2) →
      (∀ m, m < 2 + count * 3 → buf2 m = buf m) ∧
      (count = 0 → ∃ i, ad_output_debug_mesg s i = true ∧ buf2 2 = (s.queue i).index ∧
        buf2 3 = (s.queue i).value % 256 ∧ buf2 4 = (s.queue i).value / 256 % 256) ∧
      (count ≤ 1 → ∃ i, ad_output_debug_mesg s i = true ∧ buf2 5 = (s.queue i).index ∧
        buf2 6 = (s.queue i).value % 256 ∧ buf2 7 = (s.queue i).value / 256 % 256) := by
  intro fuel
  induction fuel with
  | zero =>
      intro count c buf buf2 c2 hrun
      by_cases h2 : 2 ≤ count
      · rw [ad_page_loop_done h2] at hrun
        simp only [Option.some.injEq, Prod.mk.injEq] at hrun
        obtain ⟨rfl, rfl⟩ := hrun
        exact ⟨fun m _ => rfl, fun h0 => absurd h0 (by omega), fun h1 => absurd h1 (by omega)⟩
      · simp [ad_page_loop, h2] at hrun
  | succ f ih =>
      intro count c buf buf2 c2 hrun
      by_cases h2 : 2 ≤ count
      · rw [ad_page_loop_done h2] at hrun
        simp only [Option.some.injEq, Prod.mk.injEq] at hrun
        obtain ⟨rfl, rfl⟩ := hrun
        exact ⟨fun m _ => rfl, fun h0 => absurd h0 (by omega), fun h1 => absurd h1 (by omega)⟩
      · rw [ad_page_loop_succ s f buf c count h2] at hrun
        cases helc : ad_output_debug_mesg s c with
        | false =>
            rw [helc] at hrun
            simp only [Bool.false_eq_true, if_false] at hrun
            exact ih count _ buf buf2 c2 hrun
        | true =>
            rw [helc] at hrun
            simp only [if_true] at hrun
            obtain ⟨ha, _, hc3⟩ := ih (count + 1) _ _ buf2 c2 hrun
            refine ⟨?_, ?_, ?_⟩
            · intro m hm
              rw [ha m (by omega), Function.update_noteq (by omega),
                  Function.update_noteq (by omega), Function.update_noteq (by omega)]
            · intro h0
              subst h0
              refine ⟨c, helc, ?_, ?_, ?_⟩
              · rw [ha 2 (by norm_num)]; simp [Function.update]
              · rw [ha 3 (by norm_num)]; simp [Function.update]
              · rw [ha 4 (by norm_num)]; simp [Function.update]
            · intro h1
              by_cases h0 : count = 0
              · subst h0
                exact hc3 (by omega)
              · have hcount : count = 1 := by omega
                subst hcount
                refine ⟨c, helc, ?_, ?_, ?_⟩
                · rw [ha 5 (by norm_num)]; simp [Function.update]
                · rw [ha 6 (by norm_num)]; simp [Function.update]
                · rw [ha 7 (by norm_num)]; simp [Function.update]

theorem ad_page_loop_total {s : DState} {j : Nat} (hsz : s.queueSize ≤ 255)
    (hj : j < s.queueSize) (hel : ad_output_debug_mesg s j = true)
    (buf : Nat → Nat) (c : Nat) :
    (ad_page_loop s (2 * s.queueSize + 2) buf c 0).isSome := by
  have h22 : 2 * s.queueSize + 2 = (2 * s.queueSize + 1) + 1 := by omega
  rw [h22, ad_page_loop_succ s _ buf c 0 (by omega)]
  have hc2 : (if s.queueSize ≤ (c + 1) % 256 then 0 else (c + 1) % 256) < s.queueSize := by
    split
    · omega
    · omega
  cases helc : ad_output_debug_mesg s c with
  | true =>
      simp only [helc, if_true]
      apply ad_page_loop_some hsz hj hel _ _ _ _ hc2
      intro _
      have := distTo_lt hj hc2
      norm_num
      omega
  | false =>
      simp only [helc, Bool.false_eq_true, if_false]
      apply ad_page_loop_some hsz hj hel _ _ _ _ hc2
      intro _
      have := distTo_lt hj hc2
      norm_num
      omega

/-- Claim C1 (amended): building one page terminates and produces a
well-formed page (tag byte 0xF9 at offset 0, fast byte at offset 1)
whenever the registry is empty or at least one slot is eligible for output
(which covers selective mode off, and selective mode on with some included
flag set); the loop then completes within 2 * size + 2 iterations.  The
claim as stated is refuted by the counterexample below: with selective
mode on, a non-empty registry and no included slot, the loop never
finishes. -/
theorem C1_page_build_bounded (s : DState) (buf : Nat → Nat)
    (hsz : s.queueSize ≤ 255)
    (helig : s.queueSize = 0 ∨ ∃ j, j < s.queueSize ∧ ad_output_debug_mesg s j = true) :
    ∃ pr, ad_get_debug_page s buf (2 * s.queueSize + 2) = some pr ∧
      pr.1 0 = 249 ∧ pr.1 1 = s.fastByte := by
  by_cases h0 : 0 < s.queueSize
  · obtain ⟨j, hj, hel⟩ := helig.resolve_left (by omega)
    have htot := ad_page_loop_total hsz hj hel
      (Function.update (Function.update buf 0 249) 1 s.fastByte) s.cursor
    obtain ⟨pr, hpr⟩ := Option.isSome_iff_exists.mp htot
    have hpage : ad_get_debug_page s buf (2 * s.queueSize + 2) = some pr := by
      simp only [ad_get_debug_page, h0, if_pos]
      exact hpr
    have hrun : ad_page_loop s (2 * s.queueSize + 2)
        (Function.update (Function.update buf 0 249) 1 s.fastByte) s.cursor 0
        = some (pr.1, pr.2) := by rw [hpr]
    obtain ⟨ha, _, _⟩ := ad_page_loop_content _ _ _ _ pr.1 pr.2 hrun
    refine ⟨pr, hpage, ?_, ?_⟩
    · rw [ha 0 (by norm_num)]; simp [Function.update]
    · rw [ha 1 (by norm_num)]; simp [Function.update]
  · have hpage : ad_get_debug_page s buf (2 * s.queueSize + 2) =
        some (Function.update (Function.update (Function.update (Function.update
          (Function.update (Function.update (Function.update (Function.update
          buf 0 249) 1 s.fastByte) 2 255) 3 255) 4 255) 5 255) 6 255) 7 255, s.cursor) := by
      simp only [ad_get_debug_page, if_neg h0]
    exact ⟨_, hpage, by simp [Function.update], by simp [Function.update]⟩

set_option maxRecDepth 4000 in
/-- Claim C1 counterexample: with selective mode on, one occupied slot and
no included flag set, the page-build loop has produced no page even after
600 iterations, although the claim promises completion after examining at
most size = 1 slots and rules out an infinite loop. -/
theorem C1_counterexample :
    noEligState.queueSize = 1 ∧
    (ad_get_debug_page noEligState (fun _ => 0) 600).isSome = false := by
  constructor
  · rfl
  · decide

theorem C1_witness :
    (initState.queueSize ≤ 255 ∧
      (initState.queueSize = 0 ∨
        ∃ j, j < initState.queueSize ∧ ad_output_debug_mesg initState j = true)) ∧
    (∃ pr, ad_get_debug_page initState (fun _ => 0) (2 * initState.queueSize + 2) = some pr ∧
      pr.1 0 = 249 ∧ pr.1 1 = initState.fastByte) :=
  ⟨⟨by decide, Or.inl (by decide)⟩,
    C1_page_build_bounded initState (fun _ => 0) (by decide) (Or.inl (by decide))⟩

/-- Claim C10: with selective mode on, a non-empty registry, the cursor in
range, and exactly one slot j whose included flag is true, building a page
terminates (within fuel 2 * size + 2) and emits slot j's key and
little-endian value in both (key, value) pair positions of the page. -/
theorem C10_single_included_field_twice (s : DState) (buf : Nat → Nat) (j : Nat)
    (hsel : s.selective = true)
    (hsz0 : 0 < s.queueSize) (hsz : s.queueSize ≤ 255)
    (hj : j < s.queueSize)
    (hout : ∀ i, (s.queue i).output = true ↔ i = j) :
    ∃ pr, ad_get_debug_page s buf (2 * s.queueSize + 2) = some pr ∧
      pr.1 2 = (s.queue j).index ∧ pr.1 5 = (s.queue j).index ∧
      pr.1 3 = (s.queue j).value % 256 ∧ pr.1 6 = (s.queue j).value % 256 ∧
      pr.1 4 = (s.queue j).value / 256 % 256 ∧ pr.1 7 = (s.queue j).value / 256 % 256 := by
  have hel : ad_output_debug_mesg s j = true := by
    simp [ad_output_debug_mesg, hsel, (hout j).mpr rfl]
  have honly : ∀ i, ad_output_debug_mesg s i = true → i = j := by
    intro i h
    exact (hout i).mp (by simpa [ad_output_debug_mesg, hsel] using h)
  have htot := ad_page_loop_total hsz hj hel
    (Function.update (Function.update buf 0 249) 1 s.fastByte) s.cursor
  obtain ⟨pr, hpr⟩ := Option.isSome_iff_exists.mp htot
  have hpage : ad_get_debug_page s buf (2 * s.queueSize + 2) = some pr := by
    simp only [ad_get_debug_page, if_pos hsz0]
    exact hpr
  have hrun : ad_page_loop s (2 * s.queueSize + 2)
      (Function.update (Function.update buf 0 249) 1 s.fastByte) s.cursor 0
      = some (pr.1, pr.2) := by rw [hpr]
  obtain ⟨_, hb, hc⟩ := ad_page_loop_content _ _ _ _ pr.1 pr.2 hrun
  obtain ⟨i1, heli1, h2, h3, h4⟩ := hb rfl
  obtain ⟨i2, heli2, h5, h6, h7⟩ := hc (by omega)
  rw [honly i1 heli1] at h2 h3 h4
  rw [honly i2 heli2] at h5 h6 h7
  exact ⟨pr, hpage, h2, h5, h3, h6, h4, h7⟩

theorem C10_witness :
    (oneIncludedState.selective = true ∧ 0 < oneIncludedState.queueSize ∧
      oneIncludedState.queueSize ≤ 255 ∧ 1 < oneIncludedState.queueSize ∧
      (∀ i, (oneIncludedState.queue i).output = true ↔ i = 1)) ∧
    (∃ pr, ad_get_debug_page oneIncludedState (fun _ => 0)
        (2 * oneIncludedState.queueSize + 2) = some pr ∧
      pr.1 2 = (oneIncludedState.queue 1).index ∧ pr.1 5 = (oneIncludedState.queue 1).index ∧
      pr.1 3 = (oneIncludedState.queue 1).value % 256 ∧
      pr.1 6 = (oneIncludedState.queue 1).value % 256 ∧
      pr.1 4 = (oneIncludedState.queue 1).value / 256 % 256 ∧
      pr.1 7 = (oneIncludedState.queue 1).value / 256 % 256) :=
  ⟨⟨rfl, by decide, by decide, by decide,
      fun i => by by_cases h : i = 1 <;> simp [oneIncludedState, h]⟩,
    C10_single_included_field_twice oneIncludedState (fun _ => 0) 1 rfl (by decide) (by decide)
      (by decide) (fun i => by by_cases h : i = 1 <;> simp [oneIncludedState, h])⟩

/-- Claim C2 fails on the code (code bug): on a freshly initialized
registry the key 5 was never set (its lookup entry is the 0xFF sentinel),
yet `ad_get_debug_field` returns `some 0`.  The C code reads
`m_debug_queue[m_hash_lookup[5]]` = slot 255 without checking the lookup
sentinel, and `ad_init` leaves that slot's `index` at 0 rather than the
0xFF the guard tests for, so the unset key is reported present with
value 0. -/
theorem C2_get_on_unset_key_not_absent :
    initState.lookup 5 = 255 ∧ ad_get_debug_field initState 5 = some 0 := by decide

/-- Claim C3 fails on the code (code bug): incrementing the absent key 5 of
a fresh registry is not a no-op.  The faulty get (see C2) reports value 0,
so the key gets registered with value 1 (second and third conjuncts).  On
a present key the claim's arithmetic holds: the last conjunct shows the
16-bit wraparound 65535 to 0 for key 7. -/
theorem C3_increment_absent_key_not_noop :
    initState.lookup 5 = 255 ∧
    (ad_increment_debug_field initState 5).lookup 5 = 0 ∧
    ad_get_debug_field (ad_increment_debug_field initState 5) 5 = some 1 ∧
    ad_get_debug_field (ad_increment_debug_field (ad_set_debug_field initState 7 65535) 7) 7
      = some 0 := by decide

set_option maxRecDepth 8000 in
/-- Claim C4 fails on the code (code bug): `ad_set_debug_field` returns
nothing and performs no capacity check, so no CapacityExceeded error can
be surfaced.  255 distinct keys occupy 255 slots; on the 256th distinct
key (DEBUG_QUEUE_SIZE) the 8-bit `m_queue_size` and `m_head` wrap to 0 and
the registry silently appears empty, although key 7 is still readable
through the lookup table (last conjunct).  A 257th distinct uint8_t key
does not exist. -/
theorem C4_capacity_overflow_wraps :
    (runOps (capOps 255)).st.queueSize = 255 ∧
    (runOps (capOps 256)).st.queueSize = 0 ∧
    (runOps (capOps 256)).st.head = 0 ∧
    ad_get_debug_field (runOps (capOps 255)).st 7 = some 7 := by decide

/-- Claim C8: `ad_init` resets the slot count, cursor, head, selective
flag, fast byte (to 0xFF), every slot's key and value, and every lookup
entry, but leaves every slot's `output` (included) flag at its prior
value.  Consequently (final conjuncts) a field registered after
re-initialization - key 7, allocated into slot 0 - inherits
included = true from the earlier filter-add for key 5 that used slot 0
before the re-initialization. -/
theorem C8_init_keeps_output_flags (s : DState) (i : Nat) :
    ((ad_init s).queue i).output = (s.queue i).output ∧
    (ad_init s).queueSize = 0 ∧ (ad_init s).cursor = 0 ∧ (ad_init s).head = 0 ∧
    (ad_init s).selective = false ∧ (ad_init s).fastByte = 255 ∧
    ((ad_init s).queue i).index = 0 ∧ ((ad_init s).queue i).value = 0 ∧
    (ad_init s).lookup i = 255 ∧
    ((afterFilterState.queue 0).output = true ∧
      (ad_set_debug_field (ad_init afterFilterState) 7 3).lookup 7 = 0 ∧
      ((ad_set_debug_field (ad_init afterFilterState) 7 3).queue 0).output = true) :=
  ⟨rfl, rfl, rfl, rfl, rfl, rfl, rfl, rfl, rfl, by decide, by decide, by decide⟩

/-- Claim C9: the public set operation does not enforce the reserved-key
rule.  With key 255 unknown and the registry strictly within capacity,
`ad_set_debug_field 255 v` allocates the next free slot, records
lookup[255] = head (not the sentinel), stores key 255 and the value there
and bumps the counters - exactly the allocation path any other key takes.
Only the command decoder filters out byte 255: `ad_filter_add_byte` on
byte 255 is the identity (last conjunct). -/
theorem C9_set_does_not_enforce_reserved_key (s : DState) (v : Nat)
    (h255 : s.lookup 255 = 255) (hhead : s.head < 255) (hsize : s.queueSize < 255) :
    (ad_set_debug_field s 255 v).lookup 255 = s.head ∧
    (ad_set_debug_field s 255 v).lookup 255 ≠ 255 ∧
    ((ad_set_debug_field s 255 v).queue s.head).index = 255 ∧
    ((ad_set_debug_field s 255 v).queue s.head).value = v % 65536 ∧
    (ad_set_debug_field s 255 v).queueSize = s.queueSize + 1 ∧
    (ad_set_debug_field s 255 v).head = s.head + 1 ∧
    (∀ t : DState, ad_filter_add_byte t 255 = t) := by
  have h := ad_set_unknown (s := s) (k := 255) (v := v) (by simpa using h255)
  rw [h]
  refine ⟨?_, ?_, ?_, ?_, ?_, ?_, ?_⟩
  · simp [Function.update]
  · simp [Function.update]; omega
  · simp [Function.update]
  · simp [Function.update]
  · simp [Nat.mod_eq_of_lt (by omega : s.queueSize + 1 < 256)]
  · simp [Nat.mod_eq_of_lt (by omega : s.head + 1 < 256)]
  · intro t; simp [ad_filter_add_byte]

theorem C9_witness :
    (initState.lookup 255 = 255 ∧ initState.head < 255 ∧ initState.queueSize < 255) ∧
    ((ad_set_debug_field initState 255 7).lookup 255 = initState.head ∧
    (ad_set_debug_field initState 255 7).lookup 255 ≠ 255 ∧
    ((ad_set_debug_field initState 255 7).queue initState.head).index = 255 ∧
    ((ad_set_debug_field initState 255 7).queue initState.head).value = 7 % 65536 ∧
    (ad_set_debug_field initState 255 7).queueSize = initState.queueSize + 1 ∧
    (ad_set_debug_field initState 255 7).head = initState.head + 1 ∧
    (∀ t : DState, ad_filter_add_byte t 255 = t)) :=
  ⟨⟨rfl, by decide, by decide⟩,
    C9_set_does_not_enforce_reserved_key initState 7 rfl (by decide) (by decide)⟩

theorem mem_Reg {s : DState} {k : Nat} : k ∈ Reg s ↔ k < 256 ∧ s.lookup k ≠ 255 := by
  simp [Reg, Finset.mem_filter, Finset.mem_range]

theorem update_index_eq (q : Nat → DebugValue) (i : Nat) (d : DebugValue)
    (hd : d.index = (q i).index) (m : Nat) :
    (Function.update q i d m).index = (q m).index := by
  by_cases h : m = i
  · subst h; rw [Function.update_same, hd]
  · rw [Function.update_noteq h]

theorem WFI_congr {s s2 : DState} {T : Finset Nat} (h : WFI s T)
    (hl : s2.lookup = s.lookup) (hq : ∀ m, (s2.queue m).index = (s.queue m).index)
    (hh : s2.head = s.head) (hs : s2.queueSize = s.queueSize) : WFI s2 T := by
  obtain ⟨h1, h2, h3, h4, h5⟩ := h
  have hreg : Reg s2 = Reg s := by
    apply Finset.ext
    intro k
    simp [mem_Reg, hl]
  refine ⟨by rw [hh, hs, h1], by rw [hs, hreg]; exact h2, by rw [hreg]; exact h3, ?_, ?_⟩
  · intro i hi
    rw [hl, hq i]
    exact h4 i (by rw [hs] at hi; exact hi)
  · intro k hk hne
    rw [hl] at hne ⊢
    obtain ⟨hlt, hidx⟩ := h5 k hk hne
    exact ⟨by rw [hs]; exact hlt, by rw [hq]; exact hidx⟩

theorem set_WFI {s : DState} {T : Finset Nat} {k v : Nat} (h : WFI s T)
    (hT : T.card ≤ 255) (hkT : k % 256 ∈ T) :
    WFI (ad_set_debug_field s k v) T := by
  obtain ⟨h1, h2, h3, h4, h5⟩ := h
  have hkey : k % 256 < 256 := Nat.mod_lt _ (by omega)
  by_cases hknown : s.lookup (k % 256) = 255
  · -- allocation path
    rw [ad_set_unknown hknown]
    have hnotin : k % 256 ∉ Reg s := fun hmem => (mem_Reg.mp hmem).2 hknown
    have hins : insert (k % 256) (Reg s) ⊆ T := Finset.insert_subset hkT h3
    have hcard : (insert (k % 256) (Reg s)).card = (Reg s).card + 1 :=
      Finset.card_insert_of_not_mem hnotin
    have hsz254 : s.queueSize ≤ 254 := by
      have := Finset.card_le_card hins
      omega
    have hreg : Reg { s with
        lookup := Function.update s.lookup (k % 256) s.head
        queue := Function.update s.queue s.head ⟨k % 256, v % 65536, (s.queue s.head).output⟩
        head := (s.head + 1) % 256
        queueSize := (s.queueSize + 1) % 256 } = insert (k % 256) (Reg s) := by
      apply Finset.ext
      intro m
      simp only [mem_Reg, Finset.mem_insert]
      by_cases hm : m = k % 256
      · subst hm
        simp only [Function.update_same, hkey, true_and, true_or, iff_true]
        omega
      · rw [Function.update_noteq hm]
        simp only [mem_Reg, hm, false_or]
    refine ⟨?_, ?_, ?_, ?_, ?_⟩
    · show (s.head + 1) % 256 = (s.queueSize + 1) % 256
      rw [h1]
    · show (s.queueSize + 1) % 256 = _
      rw [hreg, hcard, ← h2, Nat.mod_eq_of_lt (by omega)]
    · rw [hreg]; exact hins
    · show ∀ i, i < (s.queueSize + 1) % 256 → _
      rw [Nat.mod_eq_of_lt (by omega)]
      intro i hi
      dsimp only
      by_cases hieq : i = s.queueSize
      · subst hieq
        rw [← h1, Function.update_same]
        dsimp only
        exact Function.update_same _ _ _
      · have hilt : i < s.queueSize := by omega
        rw [Function.update_noteq (show i ≠ s.head by omega) _ _]
        have hidxne : (s.queue i).index ≠ k % 256 := by
          intro heq
          have h4i := h4 i hilt
          rw [heq, hknown] at h4i
          omega
        rw [Function.update_noteq hidxne _ _]
        exact h4 i hilt
    · show ∀ m, m < 256 → _ → _
      intro m hm hne
      dsimp only at hne ⊢
      rw [Nat.mod_eq_of_lt (show s.queueSize + 1 < 256 by omega)]
      by_cases hmeq : m = k % 256
      · subst hmeq
        rw [Function.update_same] at hne ⊢
        rw [h1, Function.update_same]
        exact ⟨by omega, rfl⟩
      · rw [Function.update_noteq hmeq _ _] at hne ⊢
        obtain ⟨hlt, hidx⟩ := h5 m hm hne
        refine ⟨by omega, ?_⟩
        rw [Function.update_noteq (show s.lookup m ≠ s.head by omega) _ _]
        exact hidx
  · -- known-key path: value overwrite only
    rw [ad_set_known hknown]
    refine WFI_congr ⟨h1, h2, h3, h4, h5⟩ ?_ ?_ ?_ ?_
    · rfl
    · intro m
      dsimp only
      exact update_index_eq s.queue (s.lookup (k % 256))
        ⟨(s.queue (s.lookup (k % 256))).index, v % 65536,
          (s.queue (s.lookup (k % 256))).output⟩ rfl m
    · rfl
    · rfl

theorem filter_add_of_255 (s : DState) : ad_filter_add_byte s 255 = s := by
  simp [ad_filter_add_byte]

theorem filter_add_of_known {s : DState} {b : Nat} (h255 : b ≠ 255)
    (hk : s.lookup b ≠ 255) :
    ad_filter_add_byte s b = setOutputTrue s (s.lookup b) := by
  simp [ad_filter_add_byte, setOutputTrue, h255, hk]

theorem filter_add_of_unknown {s : DState} {b : Nat} (h255 : b ≠ 255)
    (hk : s.lookup b = 255) :
    ad_filter_add_byte s b =
      setOutputTrue (ad_set_debug_field s b 65535)
        ((ad_set_debug_field s b 65535).lookup b) := by
  simp [ad_filter_add_byte, setOutputTrue, h255, hk]

theorem setOutputTrue_WFI {s : DState} {T : Finset Nat} (h : WFI s T) (j : Nat) :
    WFI (setOutputTrue s j) T := by
  refine WFI_congr h ?_ ?_ ?_ ?_
  · rfl
  · intro m
    exact update_index_eq s.queue j ⟨(s.queue j).index, (s.queue j).value, true⟩ rfl m
  · rfl
  · rfl

theorem inc_WFI {s : DState} {T : Finset Nat} {k : Nat} (h : WFI s T)
    (hT : T.card ≤ 255) (hkT : k % 256 ∈ T) :
    WFI (ad_increment_debug_field s k) T := by
  unfold ad_increment_debug_field
  cases ad_get_debug_field s k with
  | none => exact h
  | some v => exact set_WFI h hT hkT

theorem filter_add_WFI {s : DState} {T : Finset Nat} {b : Nat} (h : WFI s T)
    (hT : T.card ≤ 255) (hb : b < 256) (hbT : b ∈ T) :
    WFI (ad_filter_add_byte s b) T := by
  by_cases h255 : b = 255
  · subst h255; rw [filter_add_of_255]; exact h
  · by_cases hk : s.lookup b = 255
    · rw [filter_add_of_unknown h255 hk]
      exact setOutputTrue_WFI (set_WFI h hT (by rwa [Nat.mod_eq_of_lt hb])) _
    · rw [filter_add_of_known h255 hk]
      exact setOutputTrue_WFI h _

theorem foldl_filter_add_WFI {T : Finset Nat} (hT : T.card ≤ 255) :
    ∀ (bs : List Nat) (s : DState), WFI s T → (∀ b ∈ bs, b < 256 ∧ b ∈ T) →
      WFI (List.foldl ad_filter_add_byte s bs) T := by
  intro bs
  induction bs with
  | nil => intro s h _; exact h
  | cons b t ih =>
      intro s h hmem
      rw [List.foldl_cons]
      exact ih _ (filter_add_WFI h hT (hmem b (by simp)).1 (hmem b (by simp)).2)
        (fun x hx => hmem x (by simp [hx]))

theorem ad_clear_outputs_index (q : Nat → DebugValue) :
    ∀ n m, (ad_clear_outputs q n m).index = (q m).index := by
  intro n
  induction n with
  | zero => intro m; rfl
  | succ n ih =>
      intro m
      have h1 : (Function.update (ad_clear_outputs q n) n
          ⟨(ad_clear_outputs q n n).index, (ad_clear_outputs q n n).value, false⟩ m).index
          = (ad_clear_outputs q n m).index :=
        update_index_eq (ad_clear_outputs q n) n
          ⟨(ad_clear_outputs q n n).index, (ad_clear_outputs q n n).value, false⟩ rfl m
      exact h1.trans (ih m)

theorem decode_WFI {s : DState} {T : Finset Nat} {p : Nat → Nat} (h : WFI s T)
    (hT : T.card ≤ 255) (hb : ∀ n, 3 ≤ n → n < 8 → p n % 256 ∈ T) :
    WFI (ad_decode_debug_command s p) T := by
  unfold ad_decode_debug_command
  split
  · split
    · refine foldl_filter_add_WFI hT _ _ ?_ ?_
      · exact WFI_congr h rfl (fun _ => rfl) rfl rfl
      intro b hbmem
      simp only [List.mem_cons, List.not_mem_nil, or_false] at hbmem
      rcases hbmem with rfl | rfl | rfl | rfl | rfl
      · exact ⟨Nat.mod_lt _ (by omega), hb 3 (by omega) (by omega)⟩
      · exact ⟨Nat.mod_lt _ (by omega), hb 4 (by omega) (by omega)⟩
      · exact ⟨Nat.mod_lt _ (by omega), hb 5 (by omega) (by omega)⟩
      · exact ⟨Nat.mod_lt _ (by omega), hb 6 (by omega) (by omega)⟩
      · exact ⟨Nat.mod_lt _ (by omega), hb 7 (by omega) (by omega)⟩
    · split
      · exact WFI_congr h rfl (fun m => ad_clear_outputs_index s.queue s.queueSize m) rfl rfl
      · exact h
  · exact h

theorem applyOp_WFI {T : Finset Nat} (hT : T.card ≤ 255) (r : RunSt) (op : DbgOp)
    (h : WFI r.st T) (hsub : opKeys op ⊆ T) : WFI (applyOp r op).st T := by
  cases op with
  | set k v =>
      exact set_WFI h hT (hsub (by simp [opKeys]))
  | inc k =>
      exact inc_WFI h hT (hsub (by simp [opKeys]))
  | dec p =>
      apply decode_WFI h hT
      intro n h3 h8
      interval_cases n
      · exact hsub (by simp [opKeys])
      · exact hsub (by simp [opKeys])
      · exact hsub (by simp [opKeys])
      · exact hsub (by simp [opKeys])
      · exact hsub (by simp [opKeys])
  | build fuel =>
      simp only [applyOp]
      cases hm : ad_get_debug_page r.st r.buf fuel with
      | none => simp only [hm]; exact h
      | some pr => simp only [hm]; exact WFI_congr h rfl (fun _ => rfl) rfl rfl
  | fast b =>
      exact WFI_congr h rfl (fun _ => rfl) rfl rfl

theorem runFrom_WFI {T : Finset Nat} (hT : T.card ≤ 255) :
    ∀ (ops : List DbgOp) (r : RunSt), WFI r.st T → (∀ op ∈ ops, opKeys op ⊆ T) →
      WFI (runFrom r ops).st T := by
  intro ops
  induction ops with
  | nil => intro r h _; exact h
  | cons op t ih =>
      intro r h hsub
      show WFI (runFrom (applyOp r op) t).st T
      exact ih _ (applyOp_WFI hT r op h (hsub op (by simp)))
        (fun x hx => hsub x (by simp [hx]))

theorem WFI_initState (T : Finset Nat) : WFI initState T := by
  have hreg : Reg initState = ∅ := by
    apply Finset.eq_empty_of_forall_not_mem
    intro m hm
    exact (mem_Reg.mp hm).2 rfl
  refine ⟨rfl, ?_, ?_, ?_, ?_⟩
  · rw [hreg]; rfl
  · rw [hreg]; exact Finset.empty_subset T
  · intro i hi
    have h0 : initState.queueSize = 0 := rfl
    omega
  · intro k _ hne
    exact absurd rfl hne

theorem opKeys_subset_keysOf : ∀ {ops : List DbgOp} {op : DbgOp}, op ∈ ops →
    opKeys op ⊆ keysOf ops := by
  intro ops
  induction ops with
  | nil => intro op hop; exact absurd hop (by simp)
  | cons o t ih =>
      intro op hop
      rcases List.mem_cons.mp hop with rfl | hmem
      · exact Finset.subset_union_left
      · exact (ih hmem).trans Finset.subset_union_right

/-- Claim C7 (amended): after any sequence of set, increment, command
decode (and page build / fast byte) operations from a fresh initialization
that names at most 255 distinct keys - one less than the 256-slot
capacity, because slot index 255 collides with the 0xFF absence sentinel
of the uint8_t lookup table - the bidirectional lookup invariant holds:
every occupied slot's key looks up to that slot, and every non-sentinel
lookup entry points to a slot holding that key.  At exactly 256 distinct
keys (the declared capacity) the claim as stated fails, see the
counterexample. -/
theorem C7_registry_lookup_invariant (ops : List DbgOp)
    (hcap : (keysOf ops).card ≤ 255) :
    (∀ i, i < (runOps ops).st.queueSize →
      (runOps ops).st.lookup (((runOps ops).st.queue i).index) = i) ∧
    (∀ k, k < 256 → (runOps ops).st.lookup k ≠ 255 →
      ((runOps ops).st.queue ((runOps ops).st.lookup k)).index = k) := by
  have h := runFrom_WFI hcap ops { st := initState, buf := fun _ => 0, pages := [] }
    (WFI_initState _) (fun op hop => opKeys_subset_keysOf hop)
  exact ⟨h.2.2.2.1, fun k hk hne => (h.2.2.2.2 k hk hne).2⟩

theorem C7_witness :
    ((keysOf [DbgOp.set 5 100]).card ≤ 255) ∧
    ((∀ i, i < (runOps [DbgOp.set 5 100]).st.queueSize →
      (runOps [DbgOp.set 5 100]).st.lookup
        (((runOps [DbgOp.set 5 100]).st.queue i).index) = i) ∧
    (∀ k, k < 256 → (runOps [DbgOp.set 5 100]).st.lookup k ≠ 255 →
      ((runOps [DbgOp.set 5 100]).st.queue
        ((runOps [DbgOp.set 5 100]).st.lookup k)).index = k)) :=
  ⟨by decide, C7_registry_lookup_invariant [DbgOp.set 5 100] (by decide)⟩

set_option maxRecDepth 8000 in
/-- Claim C7 counterexample: a sequence naming exactly 256 distinct keys
(equal to the capacity DEBUG_QUEUE_SIZE, hence not exceeding it) followed
by one repeated set breaks the invariant.  Registering key 255 as the
256th key writes slot number 255 - the sentinel - into its lookup entry,
so a repeated `set 255` re-allocates it into slot 0 (head wrapped to 0);
afterwards lookup[0] = 0 but fields[0].key = 255, not 0. -/
theorem C7_counterexample :
    (keysOf badC7Ops).card = 256 ∧
    (runOps badC7Ops).st.lookup 0 = 0 ∧
    ((runOps badC7Ops).st.queue ((runOps badC7Ops).st.lookup 0)).index = 255 := by
  refine ⟨by decide, by decide, by decide⟩

theorem fa_selective (t : DState) (b : Nat) :
    (ad_filter_add_byte t b).selective = t.selective := by
  by_cases h255 : b = 255
  · subst h255; rw [filter_add_of_255]
  · by_cases hk : t.lookup b = 255
    · rw [filter_add_of_unknown h255 hk]
      by_cases hk2 : t.lookup (b % 256) = 255
      · rw [ad_set_unknown hk2]; rfl
      · rw [ad_set_known hk2]; rfl
    · rw [filter_add_of_known h255 hk]; rfl

theorem fa_head (t : DState) (b : Nat) (hb : b < 256) (hh : t.head < 255) :
    t.head ≤ (ad_filter_add_byte t b).head ∧ (ad_filter_add_byte t b).head ≤ t.head + 1 := by
  have hmod : b % 256 = b := Nat.mod_eq_of_lt hb
  by_cases h255 : b = 255
  · subst h255; rw [filter_add_of_255]; omega
  · by_cases hk : t.lookup b = 255
    · rw [filter_add_of_unknown h255 hk, ad_set_unknown (by rwa [hmod])]
      show t.head ≤ (t.head + 1) % 256 ∧ (t.head + 1) % 256 ≤ t.head + 1
      rw [Nat.mod_eq_of_lt (by omega)]
      omega
    · rw [filter_add_of_known h255 hk]
      show t.head ≤ t.head ∧ t.head ≤ t.head + 1
      omega

theorem fa_lookup_ne (t : DState) (b b2 : Nat) (hb2 : b2 < 256) (hne : b ≠ b2) :
    (ad_filter_add_byte t b2).lookup b = t.lookup b := by
  have hmod : b2 % 256 = b2 := Nat.mod_eq_of_lt hb2
  by_cases h255 : b2 = 255
  · subst h255; rw [filter_add_of_255]
  · by_cases hk : t.lookup b2 = 255
    · rw [filter_add_of_unknown h255 hk, ad_set_unknown (by rwa [hmod])]
      show Function.update t.lookup (b2 % 256) t.head b = t.lookup b
      rw [hmod, Function.update_noteq hne _ _]
    · rw [filter_add_of_known h255 hk]; rfl

theorem fa_lookup255 (t : DState) (b2 : Nat) (hb2 : b2 < 256) :
    (ad_filter_add_byte t b2).lookup 255 = t.lookup 255 := by
  by_cases h255 : b2 = 255
  · subst h255; rw [filter_add_of_255]
  · exact fa_lookup_ne t 255 b2 hb2 (fun h => h255 h.symm)

theorem fa_Q (t : DState) (b : Nat) (hQ : LookupInRange t) (hb : b < 256)
    (hh : t.head < 255) : LookupInRange (ad_filter_add_byte t b) := by
  have hmod : b % 256 = b := Nat.mod_eq_of_lt hb
  by_cases h255 : b = 255
  · subst h255; rwa [filter_add_of_255]
  · by_cases hk : t.lookup b = 255
    · rw [filter_add_of_unknown h255 hk, ad_set_unknown (by rwa [hmod])]
      intro k
      show Function.update t.lookup (b % 256) t.head k = 255 ∨
        Function.update t.lookup (b % 256) t.head k < (t.head + 1) % 256
      rw [hmod, Nat.mod_eq_of_lt (show t.head + 1 < 256 by omega)]
      by_cases hkb : k = b
      · subst hkb; rw [Function.update_same]; omega
      · rw [Function.update_noteq hkb _ _]
        rcases hQ k with h | h
        · exact Or.inl h
        · exact Or.inr (by omega)
    · rw [filter_add_of_known h255 hk]
      intro k
      exact hQ k

theorem fa_marked_preserved (t : DState) (b b2 : Nat) (hm : FilterMarked t b)
    (hb2 : b2 < 256) (hh : t.head < 255) : FilterMarked (ad_filter_add_byte t b2) b := by
  obtain ⟨hm1, hm2, hm3⟩ := hm
  have hmod : b2 % 256 = b2 := Nat.mod_eq_of_lt hb2
  by_cases h255 : b2 = 255
  · subst h255; rw [filter_add_of_255]; exact ⟨hm1, hm2, hm3⟩
  · by_cases hk : t.lookup b2 = 255
    · have hne : b ≠ b2 := fun h => hm1 (h ▸ hk)
      rw [filter_add_of_unknown h255 hk, ad_set_unknown (by rwa [hmod])]
      unfold FilterMarked setOutputTrue
      dsimp only
      rw [hmod, Nat.mod_eq_of_lt (show t.head + 1 < 256 by omega)]
      rw [Function.update_noteq hne _ _, Function.update_same]
      refine ⟨hm1, by omega, ?_⟩
      rw [Function.update_noteq (show t.lookup b ≠ t.head by omega) _ _,
        Function.update_noteq (show t.lookup b ≠ t.head by omega) _ _]
      exact hm3
    · rw [filter_add_of_known h255 hk]
      unfold FilterMarked setOutputTrue
      dsimp only
      refine ⟨hm1, hm2, ?_⟩
      by_cases heq : t.lookup b = t.lookup b2
      · rw [heq, Function.update_same]
      · rw [Function.update_noteq heq _ _]; exact hm3

theorem fa_markedval_preserved (t : DState) (b b2 : Nat) (hm : FilterMarkedVal t b)
    (hb2 : b2 < 256) (hh : t.head < 255) : FilterMarkedVal (ad_filter_add_byte t b2) b := by
  obtain ⟨⟨hm1, hm2, hm3⟩, hv⟩ := hm
  refine ⟨fa_marked_preserved t b b2 ⟨hm1, hm2, hm3⟩ hb2 hh, ?_⟩
  have hmod : b2 % 256 = b2 := Nat.mod_eq_of_lt hb2
  by_cases h255 : b2 = 255
  · subst h255; rw [filter_add_of_255]; exact hv
  · by_cases hk : t.lookup b2 = 255
    · have hne : b ≠ b2 := fun h => hm1 (h ▸ hk)
      rw [filter_add_of_unknown h255 hk, ad_set_unknown (by rwa [hmod])]
      unfold setOutputTrue
      dsimp only
      rw [hmod]
      rw [Function.update_noteq hne _ _, Function.update_same]
      rw [Function.update_noteq (show t.lookup b ≠ t.head by omega) _ _,
        Function.update_noteq (show t.lookup b ≠ t.head by omega) _ _]
      exact hv
    · rw [filter_add_of_known h255 hk]
      unfold setOutputTrue
      dsimp only
      by_cases heq : t.lookup b = t.lookup b2
      · rw [heq, Function.update_same]
        dsimp only
        rw [← heq]
        exact hv
      · rw [Function.update_noteq heq _ _]; exact hv

theorem fa_establish (t : DState) (b : Nat) (h255 : b ≠ 255) (hb : b < 256)
    (hQ : LookupInRange t) (hh : t.head < 255) :
    FilterMarked (ad_filter_add_byte t b) b ∧
    (t.lookup b = 255 → FilterMarkedVal (ad_filter_add_byte t b) b) := by
  have hmod : b % 256 = b := Nat.mod_eq_of_lt hb
  by_cases hk : t.lookup b = 255
  · rw [filter_add_of_unknown h255 hk, ad_set_unknown (by rwa [hmod])]
    unfold FilterMarkedVal FilterMarked setOutputTrue
    dsimp only
    rw [hmod, Function.update_same, Nat.mod_eq_of_lt (show t.head + 1 < 256 by omega),
      Function.update_same]
    dsimp only
    constructor
    · exact ⟨by omega, by omega, rfl⟩
    · intro _
      refine ⟨⟨by omega, by omega, rfl⟩, ?_⟩
      rw [Function.update_same]
  · rw [filter_add_of_known h255 hk]
    unfold FilterMarked setOutputTrue
    dsimp only
    rw [Function.update_same]
    refine ⟨⟨hk, (hQ b).resolve_left hk, rfl⟩, fun h => absurd h hk⟩

theorem fa_self (t : DState) (b : Nat) (h255 : b ≠ 255) (hb : b < 256)
    (hh : t.head < 255) :
    (ad_filter_add_byte t b).lookup b ≠ 255 ∧
    ((ad_filter_add_byte t b).queue ((ad_filter_add_byte t b).lookup b)).output = true := by
  have hmod : b % 256 = b := Nat.mod_eq_of_lt hb
  by_cases hk : t.lookup b = 255
  · rw [filter_add_of_unknown h255 hk, ad_set_unknown (by rwa [hmod])]
    unfold setOutputTrue
    dsimp only
    rw [hmod, Function.update_same, Function.update_same]
    exact ⟨by omega, rfl⟩
  · rw [filter_add_of_known h255 hk]
    unfold setOutputTrue
    dsimp only
    rw [Function.update_same]
    exact ⟨hk, rfl⟩

theorem setOutputTrue_of_already (t : DState) (j : Nat)
    (h : (t.queue j).output = true) : setOutputTrue t j = t := by
  unfold setOutputTrue
  have hq : Function.update t.queue j
      ⟨(t.queue j).index, (t.queue j).value, true⟩ = t.queue := by
    funext m
    by_cases hm : m = j
    · subst hm
      rw [Function.update_same, ← h]
    · rw [Function.update_noteq hm _ _]
  rw [hq]

theorem filter_add_idem (t : DState) (b : Nat) (hh : t.head < 255) (hb : b < 256) :
    ad_filter_add_byte (ad_filter_add_byte t b) b = ad_filter_add_byte t b := by
  by_cases h255 : b = 255
  · subst h255; rw [filter_add_of_255]
  · obtain ⟨h1, h2⟩ := fa_self t b h255 hb hh
    rw [filter_add_of_known h255 h1]
    exact setOutputTrue_of_already _ _ h2

theorem fold_fa_inv : ∀ (bs : List Nat) (t : DState), LookupInRange t →
    (∀ x ∈ bs, x < 256) → t.head + bs.length ≤ 255 →
    LookupInRange (List.foldl ad_filter_add_byte t bs) ∧
    t.head ≤ (List.foldl ad_filter_add_byte t bs).head ∧
    (List.foldl ad_filter_add_byte t bs).head ≤ t.head + bs.length ∧
    (List.foldl ad_filter_add_byte t bs).selective = t.selective ∧
    (List.foldl ad_filter_add_byte t bs).lookup 255 = t.lookup 255 := by
  intro bs
  induction bs with
  | nil =>
      intro t hQ _ _
      exact ⟨hQ, le_refl _, by simp, rfl, rfl⟩
  | cons b rest ih =>
      intro t hQ hbs hlen
      rw [List.foldl_cons]
      have hb : b < 256 := hbs b (by simp)
      have hh : t.head < 255 := by
        simp only [List.length_cons] at hlen; omega
      have hhd := fa_head t b hb hh
      have hrest := ih (ad_filter_add_byte t b) (fa_Q t b hQ hb hh)
        (fun x hx => hbs x (by simp [hx]))
        (by simp only [List.length_cons] at hlen; omega)
      refine ⟨hrest.1, by omega, ?_, ?_, ?_⟩
      · have := hrest.2.2.1
        simp only [List.length_cons]
        omega
      · exact hrest.2.2.2.1.trans (fa_selective t b)
      · exact hrest.2.2.2.2.trans (fa_lookup255 t b hb)

theorem fold_fa_marked : ∀ (bs : List Nat) (t : DState) (b : Nat), FilterMarked t b →
    (∀ x ∈ bs, x < 256) → t.head + bs.length ≤ 255 →
    FilterMarked (List.foldl ad_filter_add_byte t bs) b := by
  intro bs
  induction bs with
  | nil => intro t b hm _ _; exact hm
  | cons b2 rest ih =>
      intro t b hm hbs hlen
      rw [List.foldl_cons]
      have hb2 : b2 < 256 := hbs b2 (by simp)
      have hh : t.head < 255 := by simp only [List.length_cons] at hlen; omega
      have hhd := fa_head t b2 hb2 hh
      exact ih _ b (fa_marked_preserved t b b2 hm hb2 hh)
        (fun x hx => hbs x (by simp [hx]))
        (by simp only [List.length_cons] at hlen; omega)

theorem fold_fa_markedval : ∀ (bs : List Nat) (t : DState) (b : Nat), FilterMarkedVal t b →
    (∀ x ∈ bs, x < 256) → t.head + bs.length ≤ 255 →
    FilterMarkedVal (List.foldl ad_filter_add_byte t bs) b := by
  intro bs
  induction bs with
  | nil => intro t b hm _ _; exact hm
  | cons b2 rest ih =>
      intro t b hm hbs hlen
      rw [List.foldl_cons]
      have hb2 : b2 < 256 := hbs b2 (by simp)
      have hh : t.head < 255 := by simp only [List.length_cons] at hlen; omega
      have hhd := fa_head t b2 hb2 hh
      exact ih _ b (fa_markedval_preserved t b b2 hm hb2 hh)
        (fun x hx => hbs x (by simp [hx]))
        (by simp only [List.length_cons] at hlen; omega)

theorem fold_fa_establish : ∀ (bs : List Nat) (t : DState) (b : Nat), b ∈ bs → b ≠ 255 →
    (∀ x ∈ bs, x < 256) → LookupInRange t → t.head + bs.length ≤ 255 →
    FilterMarked (List.foldl ad_filter_add_byte t bs) b ∧
    (t.lookup b = 255 → FilterMarkedVal (List.foldl ad_filter_add_byte t bs) b) := by
  intro bs
  induction bs with
  | nil => intro t b hmem; exact absurd hmem (by simp)
  | cons b2 rest ih =>
      intro t b hmem h255 hbs hQ hlen
      rw [List.foldl_cons]
      have hb2 : b2 < 256 := hbs b2 (by simp)
      have hh : t.head < 255 := by simp only [List.length_cons] at hlen; omega
      have hhd := fa_head t b2 hb2 hh
      have hQ2 := fa_Q t b2 hQ hb2 hh
      have hlen2 : (ad_filter_add_byte t b2).head + rest.length ≤ 255 := by
        simp only [List.length_cons] at hlen; omega
      by_cases hbb : b = b2
      · subst hbb
        obtain ⟨hm, hval⟩ := fa_establish t b h255 (hbs b (by simp)) hQ hh
        refine ⟨fold_fa_marked rest _ b hm (fun x hx => hbs x (by simp [hx])) hlen2, ?_⟩
        intro hlk
        exact fold_fa_markedval rest _ b (hval hlk) (fun x hx => hbs x (by simp [hx])) hlen2
      · have hmem2 : b ∈ rest := by
          rcases List.mem_cons.mp hmem with h | h
          · exact absurd h hbb
          · exact h
        have hlk2 : (ad_filter_add_byte t b2).lookup b = t.lookup b :=
          fa_lookup_ne t b b2 hb2 hbb
        obtain ⟨hm, hval⟩ := ih _ b hmem2 h255 (fun x hx => hbs x (by simp [hx])) hQ2 hlen2
        exact ⟨hm, fun hlk => hval (by rw [hlk2, hlk])⟩

theorem decode_add_eq (s : DState) (p : Nat → Nat) (h1 : p 1 % 256 = 3)
    (h2 : p 2 % 256 = 1) :
    ad_decode_debug_command s p =
      List.foldl ad_filter_add_byte { s with selective := true }
        [p 3 % 256, p 4 % 256, p 5 % 256, p 6 % 256, p 7 % 256] := by
  simp [ad_decode_debug_command, h1, h2]

/-- Claim C5: decoding a filter-add command sets selective mode to true,
and for each of the five data bytes (processed in message order) that is
not 255: the key ends registered (lookup entry not the sentinel) with its
slot's included flag true, and if it was unknown to the registry
beforehand its slot holds the placeholder value 0xFFFF; data byte 255 is
skipped and key 255 is never registered (its lookup entry is unchanged);
processing a duplicate key is idempotent (last conjunct).  Hypotheses:
every non-sentinel lookup entry lies below head (true of reachable
states) and at least five slots of head-room remain. -/
theorem C5_filter_add_decode (s : DState) (b3 b4 b5 b6 b7 : Nat)
    (hb : ∀ x ∈ [b3, b4, b5, b6, b7], x < 256)
    (hQ : ∀ k, s.lookup k = 255 ∨ s.lookup k < s.head)
    (hcap : s.head + 5 ≤ 255) :
    (ad_decode_debug_command s (mkMsg 3 1 b3 b4 b5 b6 b7)).selective = true ∧
    (∀ x ∈ [b3, b4, b5, b6, b7], x ≠ 255 →
      (ad_decode_debug_command s (mkMsg 3 1 b3 b4 b5 b6 b7)).lookup x ≠ 255 ∧
      ((ad_decode_debug_command s (mkMsg 3 1 b3 b4 b5 b6 b7)).queue
        ((ad_decode_debug_command s (mkMsg 3 1 b3 b4 b5 b6 b7)).lookup x)).output = true ∧
      (s.lookup x = 255 →
        ((ad_decode_debug_command s (mkMsg 3 1 b3 b4 b5 b6 b7)).queue
          ((ad_decode_debug_command s (mkMsg 3 1 b3 b4 b5 b6 b7)).lookup x)).value = 65535)) ∧
    (ad_decode_debug_command s (mkMsg 3 1 b3 b4 b5 b6 b7)).lookup 255 = s.lookup 255 ∧
    (∀ (t : DState) (x : Nat), t.head < 255 → x < 256 →
      ad_filter_add_byte (ad_filter_add_byte t x) x = ad_filter_add_byte t x) := by
  have hrw : ad_decode_debug_command s (mkMsg 3 1 b3 b4 b5 b6 b7) =
      List.foldl ad_filter_add_byte { s with selective := true } [b3, b4, b5, b6, b7] := by
    rw [decode_add_eq s _ (by norm_num [mkMsg]) (by norm_num [mkMsg])]
    simp only [mkMsg]
    norm_num
    rw [Nat.mod_eq_of_lt (hb b3 (by simp)), Nat.mod_eq_of_lt (hb b4 (by simp)),
      Nat.mod_eq_of_lt (hb b5 (by simp)), Nat.mod_eq_of_lt (hb b6 (by simp)),
      Nat.mod_eq_of_lt (hb b7 (by simp))]
  have hQ0 : LookupInRange { s with selective := true } := hQ
  have hlen : ({ s with selective := true } : DState).head +
      ([b3, b4, b5, b6, b7] : List Nat).length ≤ 255 := by
    show s.head + 5 ≤ 255
    exact hcap
  have hinv := fold_fa_inv [b3, b4, b5, b6, b7] { s with selective := true } hQ0 hb hlen
  refine ⟨?_, ?_, ?_, ?_⟩
  · rw [hrw]
    exact hinv.2.2.2.1
  · intro x hmem h255
    have hest := fold_fa_establish [b3, b4, b5, b6, b7] { s with selective := true }
      x hmem h255 hb hQ0 hlen
    rw [hrw]
    exact ⟨hest.1.1, hest.1.2.2, fun hlk => (hest.2 hlk).2⟩
  · rw [hrw]
    exact hinv.2.2.2.2
  · intro t x hh hx
    exact filter_add_idem t x hh hx

theorem C5_witness :
    ((∀ x ∈ [5, 9, 255, 5, 7], x < 256) ∧
      (∀ k, initState.lookup k = 255 ∨ initState.lookup k < initState.head) ∧
      initState.head + 5 ≤ 255) ∧
    ((ad_decode_debug_command initState (mkMsg 3 1 5 9 255 5 7)).selective = true ∧
    (∀ x ∈ [5, 9, 255, 5, 7], x ≠ 255 →
      (ad_decode_debug_command initState (mkMsg 3 1 5 9 255 5 7)).lookup x ≠ 255 ∧
      ((ad_decode_debug_command initState (mkMsg 3 1 5 9 255 5 7)).queue
        ((ad_decode_debug_command initState (mkMsg 3 1 5 9 255 5 7)).lookup x)).output = true ∧
      (initState.lookup x = 255 →
        ((ad_decode_debug_command initState (mkMsg 3 1 5 9 255 5 7)).queue
          ((ad_decode_debug_command initState (mkMsg 3 1 5 9 255 5 7)).lookup x)).value
          = 65535)) ∧
    (ad_decode_debug_command initState (mkMsg 3 1 5 9 255 5 7)).lookup 255 =
      initState.lookup 255 ∧
    (∀ (t : DState) (x : Nat), t.head < 255 → x < 256 →
      ad_filter_add_byte (ad_filter_add_byte t x) x = ad_filter_add_byte t x)) :=
  ⟨⟨by decide, fun k => Or.inl rfl, by decide⟩,
    C5_filter_add_decode initState 5 9 255 5 7 (by decide) (fun k => Or.inl rfl) (by decide)⟩

theorem fa_unknown_eq (t : DState) (b : Nat) (h255 : b ≠ 255) (hb : b < 256)
    (hk : t.lookup b = 255) :
    ad_filter_add_byte t b =
      { t with
        lookup := Function.update t.lookup b t.head
        queue := Function.update t.queue t.head ⟨b, 65535, true⟩
        head := (t.head + 1) % 256
        queueSize := (t.queueSize + 1) % 256 } := by
  have hmod : b % 256 = b := Nat.mod_eq_of_lt hb
  rw [filter_add_of_unknown h255 hk, ad_set_unknown (by rwa [hmod])]
  unfold setOutputTrue
  dsimp only
  rw [hmod, Function.update_same, Function.update_same, Function.update_idem]

theorem fa_known_mark (t : DState) (b : Nat) (h255 : b ≠ 255) (hk : t.lookup b ≠ 255) :
    ad_filter_add_byte t b = setOutputTrue t (t.lookup b) :=
  filter_add_of_known h255 hk

theorem iso_establish (s0 : DState) (A B : Nat) (hA : A < 255) (hB : B < 255)
    (houts : ∀ i, (s0.queue i).output = false)
    (hQ : LookupInRange s0)
    (hcap : s0.head + 2 ≤ 255)
    (hlkA : s0.lookup A = 255) (hlkB : s0.lookup B = 255) :
    FilterIso (ad_decode_debug_command s0 (mkMsg 3 1 A B 255 255 255)) A B ∧
    (ad_decode_debug_command s0 (mkMsg 3 1 A B 255 255 255)).selective = true ∧
    (ad_decode_debug_command s0 (mkMsg 3 1 A B 255 255 255)).head ≤ s0.head + 2 := by
  have hA255 : A ≠ 255 := by omega
  have hB255 : B ≠ 255 := by omega
  have hrw : ad_decode_debug_command s0 (mkMsg 3 1 A B 255 255 255) =
      ad_filter_add_byte (ad_filter_add_byte { s0 with selective := true } A) B := by
    rw [decode_add_eq s0 _ (by norm_num [mkMsg]) (by norm_num [mkMsg])]
    simp only [mkMsg]
    norm_num
    rw [Nat.mod_eq_of_lt (show A < 256 by omega), Nat.mod_eq_of_lt (show B < 256 by omega),
      filter_add_of_255, filter_add_of_255, filter_add_of_255]
  rw [hrw]
  have h1 : ad_filter_add_byte ({ s0 with selective := true } : DState) A =
      { s0 with
        selective := true
        lookup := Function.update s0.lookup A s0.head
        queue := Function.update s0.queue s0.head ⟨A, 65535, true⟩
        head := (s0.head + 1) % 256
        queueSize := (s0.queueSize + 1) % 256 } :=
    fa_unknown_eq _ A hA255 (by omega) hlkA
  rw [h1, show (s0.head + 1) % 256 = s0.head + 1 from Nat.mod_eq_of_lt (by omega)]
  by_cases hAB : B = A
  · subst hAB
    have hk1 : (Function.update s0.lookup B s0.head) B ≠ 255 := by
      rw [Function.update_same]; omega
    rw [fa_known_mark _ B hB255 hk1]
    unfold setOutputTrue FilterIso LookupInRange
    dsimp only
    rw [Function.update_same]
    refine ⟨⟨?_, ?_⟩, rfl, by omega⟩
    · intro i hout
      by_cases hi : i = s0.head
      · subst hi
        rw [Function.update_same]
        rw [Function.update_same]
        exact ⟨Or.inl rfl, by omega⟩
      · rw [Function.update_noteq hi _ _, Function.update_noteq hi _ _] at hout ⊢
        rw [houts i] at hout
        exact absurd hout (by simp)
    · intro k
      by_cases hk : k = B
      · subst hk; rw [Function.update_same]; omega
      · rw [Function.update_noteq hk _ _]
        rcases hQ k with h | h
        · exact Or.inl h
        · exact Or.inr (by omega)
  · have hk1 : (Function.update s0.lookup A s0.head) B = 255 := by
      rw [Function.update_noteq hAB _ _]; exact hlkB
    have h2 := fa_unknown_eq
      ({ s0 with
        selective := true
        lookup := Function.update s0.lookup A s0.head
        queue := Function.update s0.queue s0.head ⟨A, 65535, true⟩
        head := s0.head + 1
        queueSize := (s0.queueSize + 1) % 256 } : DState) B hB255 (by omega) hk1
    rw [h2]
    unfold FilterIso LookupInRange
    dsimp only
    rw [show (s0.head + 1 + 1) % 256 = s0.head + 2 from Nat.mod_eq_of_lt (by omega)]
    refine ⟨⟨?_, ?_⟩, rfl, by omega⟩
    · intro i hout
      by_cases hi : i = s0.head + 1
      · subst hi
        rw [Function.update_same] at hout ⊢
        exact ⟨Or.inr rfl, by omega⟩
      · rw [Function.update_noteq hi _ _] at hout ⊢
        by_cases hi0 : i = s0.head
        · subst hi0
          rw [Function.update_same] at hout ⊢
          exact ⟨Or.inl rfl, by omega⟩
        · rw [Function.update_noteq hi0 _ _] at hout
          rw [houts i] at hout
          exact absurd hout (by simp)
    · intro k
      by_cases hkB : k = B
      · subst hkB; rw [Function.update_same]; omega
      · rw [Function.update_noteq hkB _ _]
        by_cases hkA : k = A
        · subst hkA; rw [Function.update_same]; omega
        · rw [Function.update_noteq hkA _ _]
          rcases hQ k with h | h
          · exact Or.inl h
          · exact Or.inr (by omega)

theorem iso_congr {s s2 : DState} {A B : Nat} (h : FilterIso s A B)
    (hl : s2.lookup = s.lookup)
    (hq : ∀ m, (s2.queue m).index = (s.queue m).index ∧ (s2.queue m).output = (s.queue m).output)
    (hh : s2.head = s.head) : FilterIso s2 A B := by
  obtain ⟨h1, h2⟩ := h
  constructor
  · intro i hout
    rw [(hq i).2] at hout
    obtain ⟨hmem, hlt⟩ := h1 i hout
    rw [(hq i).1, hh]
    exact ⟨hmem, hlt⟩
  · intro k
    rw [hl, hh]
    exact h2 k

theorem set_iso {s : DState} {A B k v : Nat} (h : FilterIso s A B) (hh : s.head < 255) :
    FilterIso (ad_set_debug_field s k v) A B ∧
    (ad_set_debug_field s k v).head ≤ s.head + 1 ∧
    (ad_set_debug_field s k v).selective = s.selective := by
  obtain ⟨h1, h2⟩ := h
  by_cases hk : s.lookup (k % 256) = 255
  · rw [ad_set_unknown hk]
    have hmod : (s.head + 1) % 256 = s.head + 1 := Nat.mod_eq_of_lt (by omega)
    refine ⟨⟨?_, ?_⟩, ?_, rfl⟩
    · intro i hout
      dsimp only at hout
      show ((Function.update s.queue s.head _ i).index = A ∨
        (Function.update s.queue s.head _ i).index = B) ∧ i < (s.head + 1) % 256
      rw [hmod]
      by_cases hi : i = s.head
      · subst hi
        rw [Function.update_same] at hout
        have hout2 : (s.queue s.head).output = true := hout
        obtain ⟨_, hlt⟩ := h1 s.head hout2
        omega
      · rw [Function.update_noteq hi _ _] at hout ⊢
        obtain ⟨hmem, hlt⟩ := h1 i hout
        exact ⟨hmem, by omega⟩
    · intro m
      show Function.update s.lookup (k % 256) s.head m = 255 ∨
        Function.update s.lookup (k % 256) s.head m < (s.head + 1) % 256
      rw [hmod]
      by_cases hm : m = k % 256
      · subst hm; rw [Function.update_same]; omega
      · rw [Function.update_noteq hm _ _]
        rcases h2 m with hc | hc
        · exact Or.inl hc
        · exact Or.inr (by omega)
    · show (s.head + 1) % 256 ≤ s.head + 1
      omega
  · rw [ad_set_known hk]
    refine ⟨iso_congr ⟨h1, h2⟩ rfl ?_ rfl, by show s.head ≤ s.head + 1; omega, rfl⟩
    intro m
    constructor
    · exact update_index_eq s.queue (s.lookup (k % 256))
        ⟨(s.queue (s.lookup (k % 256))).index, v % 65536,
          (s.queue (s.lookup (k % 256))).output⟩ rfl m
    · show (Function.update s.queue (s.lookup (k % 256))
        ⟨(s.queue (s.lookup (k % 256))).index, v % 65536,
          (s.queue (s.lookup (k % 256))).output⟩ m).output = (s.queue m).output
      by_cases hm : m = s.lookup (k % 256)
      · subst hm; rw [Function.update_same]
      · rw [Function.update_noteq hm _ _]

theorem inc_iso {s : DState} {A B k : Nat} (h : FilterIso s A B) (hh : s.head < 255) :
    FilterIso (ad_increment_debug_field s k) A B ∧
    (ad_increment_debug_field s k).head ≤ s.head + 1 ∧
    (ad_increment_debug_field s k).selective = s.selective := by
  unfold ad_increment_debug_field
  cases ad_get_debug_field s k with
  | none => exact ⟨h, by show s.head ≤ s.head + 1; omega, rfl⟩
  | some v => exact set_iso h hh

theorem page_keys_of_iso {s : DState} {A B : Nat} (hiso : FilterIso s A B)
    (hsel : s.selective = true) {buf : Nat → Nat} {fuel : Nat} {pr : (Nat → Nat) × Nat}
    (h : ad_get_debug_page s buf fuel = some pr) :
    (pr.1 2 = A ∨ pr.1 2 = B ∨ pr.1 2 = 255) ∧
    (pr.1 5 = A ∨ pr.1 5 = B ∨ pr.1 5 = 255) := by
  unfold ad_get_debug_page at h
  by_cases h0 : 0 < s.queueSize
  · rw [if_pos h0] at h
    have hrun : ad_page_loop s fuel
        (Function.update (Function.update buf 0 249) 1 s.fastByte) s.cursor 0
        = some (pr.1, pr.2) := by rw [h]
    obtain ⟨_, hb, hc⟩ := ad_page_loop_content _ _ _ _ pr.1 pr.2 hrun
    obtain ⟨i1, heli1, h2, _, _⟩ := hb rfl
    obtain ⟨i2, heli2, h5, _, _⟩ := hc (by omega)
    have hm1 : (s.queue i1).output = true := by
      rw [ad_output_debug_mesg, hsel] at heli1
      exact heli1
    have hm2 : (s.queue i2).output = true := by
      rw [ad_output_debug_mesg, hsel] at heli2
      exact heli2
    obtain ⟨hmem1, _⟩ := hiso.1 i1 hm1
    obtain ⟨hmem2, _⟩ := hiso.1 i2 hm2
    constructor
    · rw [h2]
      rcases hmem1 with h | h
      · exact Or.inl h
      · exact Or.inr (Or.inl h)
    · rw [h5]
      rcases hmem2 with h | h
      · exact Or.inl h
      · exact Or.inr (Or.inl h)
  · rw [if_neg h0] at h
    simp only [Option.some.injEq] at h
    rw [← h]
    dsimp only
    constructor
    · rw [Function.update_noteq (by omega) _ _, Function.update_noteq (by omega) _ _,
        Function.update_noteq (by omega) _ _, Function.update_noteq (by omega) _ _,
        Function.update_noteq (by omega) _ _, Function.update_same]
      exact Or.inr (Or.inr rfl)
    · rw [Function.update_noteq (by omega) _ _, Function.update_noteq (by omega) _ _,
        Function.update_same]
      exact Or.inr (Or.inr rfl)

theorem decode_clear_eq (s : DState) (p : Nat → Nat) (h1 : p 1 % 256 = 3)
    (h2 : p 2 % 256 = 2) :
    ad_decode_debug_command s p =
      { s with selective := false, queue := ad_clear_outputs s.queue s.queueSize } := by
  simp [ad_decode_debug_command, h1, h2]

theorem applyOp_iso {A B : Nat} (r : RunSt) (op : DbgOp) (h : FilterIso r.st A B)
    (hsel : r.st.selective = true) (hnd : op.isDecode = false) (hh : r.st.head < 255) :
    FilterIso (applyOp r op).st A B ∧ (applyOp r op).st.selective = true ∧
    (applyOp r op).st.head ≤ r.st.head + 1 ∧
    (∀ p ∈ (applyOp r op).pages, p ∈ r.pages ∨
      ((p 2 = A ∨ p 2 = B ∨ p 2 = 255) ∧ (p 5 = A ∨ p 5 = B ∨ p 5 = 255))) := by
  cases op with
  | set k v =>
      obtain ⟨hi, hhd, hs⟩ := set_iso h hh
      simp only [applyOp]
      exact ⟨hi, by rw [hs]; exact hsel, hhd, fun p hp => Or.inl hp⟩
  | inc k =>
      obtain ⟨hi, hhd, hs⟩ := inc_iso h hh
      simp only [applyOp]
      exact ⟨hi, by rw [hs]; exact hsel, hhd, fun p hp => Or.inl hp⟩
  | dec p =>
      exact absurd hnd (by simp [DbgOp.isDecode])
  | build fuel =>
      simp only [applyOp]
      cases hm : ad_get_debug_page r.st r.buf fuel with
      | none =>
          simp only [hm]
          exact ⟨h, hsel, by omega, fun p hp => Or.inl hp⟩
      | some pr =>
          simp only [hm]
          refine ⟨iso_congr h rfl (fun m => ⟨rfl, rfl⟩) rfl, hsel, by show r.st.head ≤ _; omega, ?_⟩
          intro p hp
          rcases List.mem_append.mp hp with hmem | hone
          · exact Or.inl hmem
          · have hpr : p = pr.1 := by simpa using hone
            subst hpr
            exact Or.inr (page_keys_of_iso h hsel hm)
  | fast b =>
      exact ⟨iso_congr h rfl (fun m => ⟨rfl, rfl⟩) rfl, hsel,
        by show r.st.head ≤ _; omega, fun p hp => Or.inl hp⟩

theorem runFrom_iso {A B : Nat} : ∀ (ops : List DbgOp) (r : RunSt),
    FilterIso r.st A B → r.st.selective = true →
    (∀ op ∈ ops, op.isDecode = false) → r.st.head + ops.length ≤ 255 →
    FilterIso (runFrom r ops).st A B ∧ (runFrom r ops).st.selective = true ∧
    (∀ p ∈ (runFrom r ops).pages, p ∈ r.pages ∨
      ((p 2 = A ∨ p 2 = B ∨ p 2 = 255) ∧ (p 5 = A ∨ p 5 = B ∨ p 5 = 255))) := by
  intro ops
  induction ops with
  | nil => intro r h hsel _ _; exact ⟨h, hsel, fun p hp => Or.inl hp⟩
  | cons op rest ih =>
      intro r h hsel hnd hlen
      have hh : r.st.head < 255 := by
        simp only [List.length_cons] at hlen; omega
      obtain ⟨h2, hsel2, hhd2, hpg2⟩ := applyOp_iso r op h hsel (hnd op (by simp)) hh
      have hrest := ih (applyOp r op) h2 hsel2 (fun x hx => hnd x (by simp [hx]))
        (by simp only [List.length_cons] at hlen; omega)
      refine ⟨hrest.1, hrest.2.1, ?_⟩
      intro p hp
      rcases hrest.2.2 p hp with hmem | hgood
      · exact hpg2 p hmem
      · exact Or.inr hgood

/-- Claim C6: from a state with all included flags clear and keys A, B
unregistered, after decoding filter-add {A, B} every page built during any
following sequence of set / increment / page-build / fast-byte operations
(no intervening command decode, allocations within capacity) carries only
A, B or the 0xFF fill byte in its two key positions; and after a
filter-clear command, selective mode is off and every slot is again
eligible for output, so pages resume cycling over all registered keys. -/
theorem C6_filter_isolation (s0 s1 s2 : DState) (A B : Nat) (ops : List DbgOp)
    (buf0 : Nat → Nat) (r : RunSt)
    (hA : A < 255) (hB : B < 255)
    (houts : ∀ i, (s0.queue i).output = false)
    (hQ : ∀ k, s0.lookup k = 255 ∨ s0.lookup k < s0.head)
    (hlkA : s0.lookup A = 255) (hlkB : s0.lookup B = 255)
    (hnd : ∀ op ∈ ops, op.isDecode = false)
    (hcap : s0.head + 2 + ops.length ≤ 255)
    (hs1 : s1 = ad_decode_debug_command s0 (mkMsg 3 1 A B 255 255 255))
    (hr : r = runFrom { st := s1, buf := buf0, pages := [] } ops)
    (hs2 : s2 = ad_decode_debug_command r.st (mkMsg 3 2 255 255 255 255 255)) :
    (∀ p ∈ r.pages, (p 2 = A ∨ p 2 = B ∨ p 2 = 255) ∧ (p 5 = A ∨ p 5 = B ∨ p 5 = 255)) ∧
    s2.selective = false ∧
    (∀ i, ad_output_debug_mesg s2 i = true) := by
  subst hs1
  subst hr
  subst hs2
  obtain ⟨hiso1, hsel1, hhd1⟩ := iso_establish s0 A B hA hB houts hQ (by omega) hlkA hlkB
  have hrun := runFrom_iso ops
    { st := ad_decode_debug_command s0 (mkMsg 3 1 A B 255 255 255), buf := buf0, pages := [] }
    hiso1 hsel1 hnd (by show (ad_decode_debug_command s0 _).head + _ ≤ 255; omega)
  refine ⟨?_, ?_, ?_⟩
  · intro p hp
    rcases hrun.2.2 p hp with hmem | hgood
    · exact absurd hmem (by simp)
    · exact hgood
  · rw [decode_clear_eq _ _ (by norm_num [mkMsg]) (by norm_num [mkMsg])]
  · intro i
    rw [decode_clear_eq _ _ (by norm_num [mkMsg]) (by norm_num [mkMsg])]
    simp [ad_output_debug_mesg]

theorem C6_witness :
    (5 < 255 ∧ 9 < 255 ∧
      (∀ i, (initState.queue i).output = false) ∧
      (∀ k, initState.lookup k = 255 ∨ initState.lookup k < initState.head) ∧
      initState.lookup 5 = 255 ∧ initState.lookup 9 = 255 ∧
      (∀ op ∈ [DbgOp.set 3 7, DbgOp.build 600], op.isDecode = false) ∧
      initState.head + 2 + ([DbgOp.set 3 7, DbgOp.build 600] : List DbgOp).length ≤ 255) ∧
    ((∀ p ∈ (runFrom
        { st := ad_decode_debug_command initState (mkMsg 3 1 5 9 255 255 255)
          buf := fun _ => 0, pages := [] } [DbgOp.set 3 7, DbgOp.build 600]).pages,
        (p 2 = 5 ∨ p 2 = 9 ∨ p 2 = 255) ∧ (p 5 = 5 ∨ p 5 = 9 ∨ p 5 = 255)) ∧
      (ad_decode_debug_command (runFrom
        { st := ad_decode_debug_command initState (mkMsg 3 1 5 9 255 255 255)
          buf := fun _ => 0, pages := [] } [DbgOp.set 3 7, DbgOp.build 600]).st
        (mkMsg 3 2 255 255 255 255 255)).selective = false ∧
      (∀ i, ad_output_debug_mesg (ad_decode_debug_command (runFrom
        { st := ad_decode_debug_command initState (mkMsg 3 1 5 9 255 255 255)
          buf := fun _ => 0, pages := [] } [DbgOp.set 3 7, DbgOp.build 600]).st
        (mkMsg 3 2 255 255 255 255 255)) i = true)) :=
  ⟨⟨by decide, by decide, fun i => rfl, fun k => Or.inl rfl, rfl, rfl, by decide, by decide⟩,
    C6_filter_isolation initState _ _ 5 9 [DbgOp.set 3 7, DbgOp.build 600] (fun _ => 0) _
      (by decide) (by decide) (fun i => rfl) (fun k => Or.inl rfl) rfl rfl
      (by decide) (by decide) rfl rfl rfl⟩
